import Mathlib

/-!
Verification development for the AI-Portfolio-Manager repository.

The operations of `src/TemplateManager.js` (template index store and
reconciliation), the project lifecycle state machine of the portfolio cli
(described by the specification; its implementation is not among the
provided sources), and the scoring-history update of
`src/AlignmentScorer.js` are embedded as pure Lean functions.

JavaScript objects used as string-keyed dictionaries are modelled as
association lists with JS-object key semantics: an assignment to an
existing key replaces its value in place, an assignment to a fresh key
appends it.  File contents are modelled up to JSON parsing: a stored file
carries either its parsed value (`some v`) or `none` for text that
`JSON.parse` rejects.
-/

set_option autoImplicit false

section AList

variable {α : Type} {β : Type} [DecidableEq α]

/-- Lookup in a JS-object model: first entry with the given key. -/
def alLookup (k : α) : List (α × β) → Option β
  | [] => none
  | (k2, v) :: rest => if k2 = k then some v else alLookup k rest

/-- Assignment in a JS-object model: replace the value at an existing key in
place, append a fresh key at the end. -/
def alInsert (k : α) (v : β) : List (α × β) → List (α × β)
  | [] => [(k, v)]
  | (k2, v2) :: rest => if k2 = k then (k, v) :: rest else (k2, v2) :: alInsert k v rest

/-- Keys of an association list, in order. -/
def alKeys (l : List (α × β)) : List α := l.map Prod.fst

end AList

namespace TM

/-- Categories accepted by `createTemplate` (TemplateManager.js line 81) and
scanned by `syncTemplateIndex` (line 273). -/
def validCategories : List String := ["project", "workflow", "component"]

/-- JavaScript `a || b` on an optional string: `undefined` and the empty
string are falsy, any other string is truthy. -/
def jsOrS (o : Option String) (d : String) : String :=
  match o with
  | some s => if s = ("") then d else s
  | none => d

/-- The `meta` object of a template JSON document.  Every field may be
absent, since documents read back from disk are arbitrary JSON. -/
structure TMeta where
  name : Option String := none
  category : Option String := none
  version : Option String := none
  description : Option String := none
  tags : Option (List String) := none
  author : Option String := none
  createdAt : Option String := none
  lastModified : Option String := none
deriving DecidableEq, Repr

/-- A JSON value that the template operations copy around without ever
inspecting (the `files`, `claudeMd`, `variables`, `dependencies` and
`postCreate` payloads).  `emptyList` stands for `[]`, `defaultClaudeMd` for
the default claudeMd object built by `createTemplate`, and `val s` for any
other JSON value, abstracted by its serialization. -/
inductive Payload
  | emptyList
  | defaultClaudeMd
  | emptyObj
  | val (s : String)
deriving DecidableEq, Repr

/-- A template JSON document.  Also used for the `templateData` argument of
`createTemplate` and the `updates` argument of `updateTemplate`, where a
`none` field means the key is absent from the supplied object. -/
structure Template where
  id : Option String := none
  meta : Option TMeta := none
  files : Option Payload := none
  claudeMd : Option Payload := none
  vars : Option Payload := none
  dependencies : Option Payload := none
  postCreate : Option Payload := none
deriving DecidableEq, Repr

/-- A path under the templates directory: the index file
`template-index.json`, or a template file `<category>/<id>.json`. -/
inductive FPath
  | indexFile
  | templateFile (category : String) (id : String)
deriving DecidableEq, Repr

/-- An entry of `index.templates`.  All fields optional: entries written by
`createTemplate` and `syncTemplateIndex` set every field, but
`updateTemplate` can store absent `meta` fields and a persisted index is
arbitrary JSON. -/
structure IndexEntry where
  category : Option String := none
  name : Option String := none
  description : Option String := none
  version : Option String := none
  path : Option FPath := none
  createdAt : Option String := none
  lastModified : Option String := none
  tags : Option (List String) := none
deriving DecidableEq, Repr

/-- The in-memory template index (`this.index`). -/
structure Index where
  templates : List (String × IndexEntry) := []
  lastUpdated : String := ""
  version : String := "1.0.0"
deriving DecidableEq, Repr

/-- Template files on disk, keyed by (category, id) for the file
`<category>/<id>.json`; the value is the parse result of the content. -/
abbrev TFiles := List ((String × String) × Option Template)

/-- The filesystem under the templates directory: the index file (absent, or
present with its parse result) and the template files. -/
structure Fs where
  indexFile : Option (Option Index) := none
  files : TFiles := []
deriving DecidableEq, Repr

/-- State of a TemplateManager: the filesystem and the in-memory index. -/
structure TMState where
  fs : Fs
  index : Index
deriving DecidableEq, Repr

/-- Errors thrown by the template operations. -/
inductive TMErr
  | alreadyExists (id : String)
  | invalidCategory (category : String)
  | missingMetaName
  | notFound (id : String)
  | readFailed (id : String)
  | updateFailed (id : String)
deriving DecidableEq, Repr

/-- The empty index returned by `loadIndex` when the backing file is absent
or unparsable (TemplateManager.js lines 39-43). -/
def emptyIndex (now : String) : Index :=
  { templates := [], lastUpdated := now, version := ("1.0.0") }

/-- Embeds `loadIndex` (TemplateManager.js lines 30-44): return the parsed
file when it exists and parses, otherwise fall through to the empty index. -/
def loadIndex (fs : Fs) (now : String) : Index :=
  match fs.indexFile with
  | some (some i) => i
  | some none => emptyIndex now
  | none => emptyIndex now

/-- Filesystem calls that persisting the index can issue. -/
inductive IoStep
  | writeIndexFile (i : Index)
  | writeTemp (name : String) (i : Index)
  | replaceIndexWith (name : String)
deriving DecidableEq, Repr

/-- Embeds `saveIndex` (TemplateManager.js lines 46-55) as the sequence of
filesystem calls it issues: it sets `lastUpdated` and then performs a single
`writeFileSync` directly to the index path. -/
def saveIndexSteps (idx : Index) (now : String) : List IoStep :=
  [IoStep.writeIndexFile { idx with lastUpdated := now }]

/-- Embeds `templateExists` (TemplateManager.js lines 72-74). -/
def templateExists (idx : Index) (id : String) : Bool :=
  (alLookup id idx.templates).isSome

/-- Write a template file (the model filesystem accepts the write). -/
def writeFile (fs : Fs) (category id : String) (content : Option Template) : Fs :=
  { fs with files := alInsert (category, id) content fs.files }

/-- The template document built by `createTemplate` (TemplateManager.js
lines 91-112), given the validated `meta.name`. -/
def mkCreatedTemplate (id category : String) (input : Template) (m : TMeta)
    (n now : String) : Template :=
  { id := some id
    meta := some
      { name := some n
        category := some category
        version := some (jsOrS m.version ("1.0.0"))
        description := some (jsOrS m.description (""))
        tags := some (m.tags.getD [])
        author := some (jsOrS m.author (""))
        createdAt := some now
        lastModified := some now }
    files := some (input.files.getD Payload.emptyList)
    claudeMd := some (input.claudeMd.getD Payload.defaultClaudeMd)
    vars := some (input.vars.getD Payload.emptyObj)
    dependencies := some (input.dependencies.getD Payload.emptyList)
    postCreate := some (input.postCreate.getD Payload.emptyList) }

/-- The index entry recorded by `createTemplate` (TemplateManager.js lines
120-129). -/
def mkCreatedEntry (id category : String) (m : TMeta) (n now : String) : IndexEntry :=
  { category := some category
    name := some n
    description := some (jsOrS m.description (""))
    version := some (jsOrS m.version ("1.0.0"))
    path := some (FPath.templateFile category id)
    createdAt := some now
    lastModified := some now
    tags := some (m.tags.getD []) }

/-- Embeds `createTemplate` (TemplateManager.js lines 76-136).  An error
result models a thrown exception; every throw in the source happens before
any mutation, so the state component is returned unchanged there. -/
def createTemplate (st : TMState) (now id category : String) (input : Template) :
    TMState × Except TMErr Template :=
  if templateExists st.index id then
    (st, Except.error (TMErr.alreadyExists id))
  else if category ∈ validCategories then
    match input.meta with
    | none => (st, Except.error TMErr.missingMetaName)
    | some m =>
      match m.name with
      | none => (st, Except.error TMErr.missingMetaName)
      | some n =>
        if n = ("") then (st, Except.error TMErr.missingMetaName)
        else
          let tpl := mkCreatedTemplate id category input m n now
          let fs1 := writeFile st.fs category id (some tpl)
          let idx1 : Index :=
            { templates := alInsert id (mkCreatedEntry id category m n now) st.index.templates
              lastUpdated := now
              version := st.index.version }
          ({ fs := { fs1 with indexFile := some (some idx1) }, index := idx1 }, Except.ok tpl)
  else
    (st, Except.error (TMErr.invalidCategory category))

/-- Category used by `getTemplatePath` when none is supplied
(TemplateManager.js lines 57-70): the index entry category when truthy,
otherwise the default `project`. -/
def getTemplatePathCat (idx : Index) (id : String) : String :=
  match alLookup id idx.templates with
  | some e => jsOrS e.category ("project")
  | none => ("project")

/-- Embeds `readTemplate` (TemplateManager.js lines 138-151). -/
def readTemplate (st : TMState) (id : String) : Except TMErr Template :=
  if templateExists st.index id then
    match alLookup ((getTemplatePathCat st.index id, id)) st.fs.files with
    | some (some t) => Except.ok t
    | some none => Except.error (TMErr.readFailed id)
    | none => Except.error (TMErr.readFailed id)
  else Except.error (TMErr.notFound id)

/-- JavaScript object spread `\x7b...a, ...b\x7d` at one key: the value from
`b` when the key is present there, otherwise the value from `a`. -/
def ovr {α : Type} (old upd : Option α) : Option α :=
  match upd with
  | some v => some v
  | none => old

/-- The merged `meta` object built by `updateTemplate` (TemplateManager.js
lines 165-169). -/
def mergeMeta (a b : TMeta) (now : String) : TMeta :=
  { name := ovr a.name b.name
    category := ovr a.category b.category
    version := ovr a.version b.version
    description := ovr a.description b.description
    tags := ovr a.tags b.tags
    author := ovr a.author b.author
    createdAt := ovr a.createdAt b.createdAt
    lastModified := some now }

/-- The merged template built by `updateTemplate` (TemplateManager.js lines
162-170). -/
def mergeTemplate (existing updates : Template) (now : String) : Template :=
  { id := ovr existing.id updates.id
    meta := some (mergeMeta (existing.meta.getD {}) (updates.meta.getD {}) now)
    files := ovr existing.files updates.files
    claudeMd := ovr existing.claudeMd updates.claudeMd
    vars := ovr existing.vars updates.vars
    dependencies := ovr existing.dependencies updates.dependencies
    postCreate := ovr existing.postCreate updates.postCreate }

/-- The refreshed index entry stored by `updateTemplate` (TemplateManager.js
lines 176-183): spread of the old entry with name, description, version,
lastModified and tags taken from the merged meta. -/
def updatedEntry (e0 : IndexEntry) (mm : TMeta) : IndexEntry :=
  { e0 with
    name := mm.name
    description := mm.description
    version := mm.version
    lastModified := mm.lastModified
    tags := some (mm.tags.getD []) }

/-- The index after `updateTemplate` refreshes the entry in place and
`saveIndex` stamps `lastUpdated`. -/
def updatedIndex (st : TMState) (now id : String) (mm : TMeta) : Index :=
  { templates :=
      alInsert id (updatedEntry ((alLookup id st.index.templates).getD {}) mm)
        st.index.templates
    lastUpdated := now
    version := st.index.version }

/-- The state after a successful `updateTemplate`: merged document written
back to the template file, entry refreshed, index persisted. -/
def updatedState (st : TMState) (now id : String) (updated : Template) (mm : TMeta) :
    TMState :=
  { fs := { (writeFile st.fs (getTemplatePathCat st.index id) id (some updated)) with indexFile := some (some (updatedIndex st now id mm)) }
    index := updatedIndex st now id mm }

/-- Embeds `updateTemplate` (TemplateManager.js lines 153-190): read the
existing document, merge the updates over it, write the file back, refresh
the index entry in place, and persist the index.  Errors leave the state
unchanged, as every throw in the source precedes the first write. -/
def updateTemplate (st : TMState) (now id : String) (updates : Template) :
    TMState × Except TMErr Template :=
  if templateExists st.index id then
    match readTemplate st id with
    | Except.error _ => (st, Except.error (TMErr.updateFailed id))
    | Except.ok existing =>
      (updatedState st now id (mergeTemplate existing updates now)
        (mergeMeta (existing.meta.getD {}) (updates.meta.getD {}) now),
       Except.ok (mergeTemplate existing updates now))
  else (st, Except.error (TMErr.notFound id))

/-- The ids of the `.json` files under one category directory, in file
order (TemplateManager.js lines 283-287). -/
def readdirIds (files : TFiles) (category : String) : List String :=
  (files.filter (fun e => e.1.1 = category)).map (fun e => e.1.2)

/-- Embeds the filesystem discovery loop of `syncTemplateIndex`
(TemplateManager.js lines 279-292): a JS object mapping each discovered id
to the last category (in `validCategories` order) that contains it. -/
def discoverPairs (files : TFiles) : List (String × String) :=
  validCategories.foldl
    (fun acc c => (readdirIds files c).foldl (fun acc2 id => alInsert id c acc2) acc) []

/-- Embeds the removal pass of `syncTemplateIndex` (TemplateManager.js lines
294-301): drop every index entry whose id was not discovered on the
filesystem, under any category. -/
def removePass (fsT : List (String × String)) (tpl : List (String × IndexEntry)) :
    List (String × IndexEntry) × Nat :=
  (tpl.filter (fun e => (alLookup e.1 fsT).isSome),
   (tpl.filter (fun e => (alLookup e.1 fsT).isNone)).length)

/-- The index entry synthesized by the addition pass of `syncTemplateIndex`
(TemplateManager.js lines 312-321). -/
def syncAddEntry (id category : String) (t : Template) (now : String) : IndexEntry :=
  { category := some category
    name := some (jsOrS (t.meta.bind TMeta.name) id)
    description := some (jsOrS (t.meta.bind TMeta.description) (""))
    version := some (jsOrS (t.meta.bind TMeta.version) ("1.0.0"))
    path := some (FPath.templateFile category id)
    createdAt := some (jsOrS (t.meta.bind TMeta.createdAt) now)
    lastModified := some (jsOrS (t.meta.bind TMeta.lastModified) now)
    tags := some ((t.meta.bind TMeta.tags).getD []) }

/-- Embeds the addition pass of `syncTemplateIndex` (TemplateManager.js
lines 303-328): for each discovered id absent from the index, read its file
and add an entry; a file whose content fails to parse is skipped with a
warning and counted nowhere. -/
def addPass (files : TFiles) (now : String) :
    List (String × String) → List (String × IndexEntry) →
    List (String × IndexEntry) × Nat
  | [], tpl => (tpl, 0)
  | (id, c) :: rest, tpl =>
    if (alLookup id tpl).isSome then addPass files now rest tpl
    else
      match alLookup ((c, id)) files with
      | some (some t) =>
        let r := addPass files now rest (alInsert id (syncAddEntry id c t now) tpl)
        (r.1, r.2 + 1)
      | some none => addPass files now rest tpl
      | none => addPass files now rest tpl

/-- The counts reported by `syncTemplateIndex` (TemplateManager.js line
338); `syncedCount` is declared but never incremented in the source. -/
structure SyncResult where
  addedCount : Nat
  syncedCount : Nat
  removedCount : Nat
deriving DecidableEq, Repr

/-- Embeds `syncTemplateIndex` (TemplateManager.js lines 271-339): discover
the template files, drop index entries with no discovered id, add entries
for discovered parsable files missing from the index, then persist the
index.  The only filesystem write is the index file. -/
def syncTemplateIndex (st : TMState) (now : String) : TMState × SyncResult :=
  let fsT := discoverPairs st.fs.files
  let rm := removePass fsT st.index.templates
  let ad := addPass st.fs.files now fsT rm.1
  let idx1 : Index :=
    { templates := ad.1, lastUpdated := now, version := st.index.version }
  ({ fs := { st.fs with indexFile := some (some idx1) }, index := idx1 },
   { addedCount := ad.2, syncedCount := 0, removedCount := rm.2 })

/-- Existence on the model filesystem of the location an index entry
records in its `path` field. -/
def pathExistsB (fs : Fs) (p : Option FPath) : Bool :=
  match p with
  | some FPath.indexFile => fs.indexFile.isSome
  | some (FPath.templateFile c id) => (alLookup ((c, id)) fs.files).isSome
  | none => false

end TM

namespace Cli

/-- Modelled from the spec: the seven lifecycle stages of the project
lifecycle state machine (spec 4.2).  The cli implementing this state
machine is not among the provided sources; only its architecture notes
are, so the machine is modelled from the specification. -/
inductive Stage
  | NEXT
  | NOW
  | MAYBE
  | DONE
  | VAULT
  | FUNERAL
  | GRAVEYARD
deriving DecidableEq, Repr

/-- Modelled from the spec: the transition operations of the missing cli
that target an existing project (spec 4.2 transition table). -/
inductive TOp
  | start
  | ship
  | pause
  | fail
  | bury
  | archive
deriving DecidableEq, Repr

/-- Modelled from the spec: terminal stages (spec glossary). -/
def isTerminal : Stage → Bool
  | Stage.VAULT => true
  | Stage.GRAVEYARD => true
  | _ => false

/-- Modelled from the spec: the allowed source stages of each operation
(spec 4.2 transition table). -/
def allowedFrom : TOp → Stage → Bool
  | TOp.start, Stage.NEXT => true
  | TOp.start, Stage.MAYBE => true
  | TOp.start, Stage.DONE => true
  | TOp.start, Stage.GRAVEYARD => true
  | TOp.start, _ => false
  | TOp.ship, Stage.NOW => true
  | TOp.ship, _ => false
  | TOp.pause, Stage.NOW => true
  | TOp.pause, _ => false
  | TOp.fail, s => !isTerminal s
  | TOp.bury, _ => true
  | TOp.archive, _ => true

/-- Modelled from the spec: the destination stage of each operation
(spec 4.2 transition table). -/
def destStage : TOp → Stage
  | TOp.start => Stage.NOW
  | TOp.ship => Stage.DONE
  | TOp.pause => Stage.MAYBE
  | TOp.fail => Stage.FUNERAL
  | TOp.bury => Stage.GRAVEYARD
  | TOp.archive => Stage.VAULT

/-- Modelled from the spec: an entry of the project index, mapping a name to
stage, path, timestamps and note (spec 3, data model).  A path is the pair
of a stage container and the project name. -/
structure ProjEntry where
  stage : Stage
  path : Stage × String
  createdAt : String := ""
  lastModified : String := ""
  note : Option String := none
deriving DecidableEq, Repr

/-- Modelled from the spec: errors of the lifecycle engine (spec 7). -/
inductive CliErr
  | unknownProject
  | invalidTransition
  | filesystemFailure
deriving DecidableEq, Repr

/-- Modelled from the spec: the state the cli manipulates, the project index
plus the physical directories under the stage containers (spec 2 and 3). -/
structure CliState where
  index : List (String × ProjEntry)
  dirs : List (Stage × String)
deriving DecidableEq, Repr

/-- Modelled from the spec: the single logical move primitive behind every
transition (spec 4.2): validate the source stage against the index, relocate
the directory, and update the entry stage, path and lastModified together.
`fsOk` is the outcome of the physical relocation; when it is false the
relocation failed and the index is left untouched, since the source updates
the index only after the filesystem operation succeeds.  An error outcome
returns the state unchanged. -/
def transition (fsOk : Bool) (st : CliState) (op : TOp) (nm now : String) :
    CliState × Except CliErr Unit :=
  match alLookup nm st.index with
  | none => (st, Except.error CliErr.unknownProject)
  | some e =>
    if allowedFrom op e.stage then
      if fsOk then
        ({ index := alInsert nm
              { e with stage := destStage op
                       path := (destStage op, nm)
                       lastModified := now } st.index
           dirs := (st.dirs.filter (fun d => !(d = (e.stage, nm)))) ++ [(destStage op, nm)] },
         Except.ok ())
      else (st, Except.error CliErr.filesystemFailure)
    else (st, Except.error CliErr.invalidTransition)

/-- Modelled from the spec: the process exit code of a transition command
(spec 6): zero on success, non-zero on any error. -/
def exitCode (r : CliState × Except CliErr Unit) : Nat :=
  match r.2 with
  | Except.ok _ => 0
  | Except.error _ => 1

end Cli

namespace Scorer

/-- One entry of the scoring history (AlignmentScorer.js lines 76-81). -/
structure HistEntry where
  projectName : String
  totalScore : Int
  timestamp : String
  missionId : Option String
deriving DecidableEq, Repr

/-- The per-project score record stored by `scoreProject`
(AlignmentScorer.js lines 60-69), with the score payload abstracted to the
fields the history claim depends on. -/
structure ScoreRecord where
  totalScore : Int
  scoredAt : String
deriving DecidableEq, Repr

/-- The persisted scores data (`this.scoresData`).  `scoringHistory` is
`none` when the stored JSON lacks the field. -/
structure ScoresData where
  projectScores : List (String × ScoreRecord) := []
  scoringHistory : Option (List HistEntry) := none
  lastUpdated : String := ""
deriving DecidableEq, Repr

/-- Embeds the state update of `AlignmentScorer.scoreProject`
(AlignmentScorer.js lines 59-86): store the score, create the history array
when absent, unshift one entry, truncate to the first 50 entries, and let
`_saveScoresData` stamp `lastUpdated`.  The total score is computed by the
pure helper `_calculateAlignmentScore` from the project data alone and is
passed in here as `total`. -/
def scoreProject (sd : ScoresData) (nm : String) (total : Int) (now : String)
    (mi : Option String) : ScoresData :=
  let sd1 := { sd with
    projectScores := alInsert nm { totalScore := total, scoredAt := now } sd.projectScores }
  let hist := sd1.scoringHistory.getD []
  let hist2 := (({ projectName := nm, totalScore := total, timestamp := now,
                   missionId := mi } : HistEntry) :: hist).take 50
  { sd1 with scoringHistory := some hist2, lastUpdated := now }

/-- A sequence of `scoreProject` calls, given as (name, score, time,
mission) tuples, applied in order. -/
def scoreProjectFold (sd : ScoresData)
    (calls : List (String × Int × String × Option String)) : ScoresData :=
  calls.foldl (fun acc q => scoreProject acc q.1 q.2.1 q.2.2.1 q.2.2.2) sd

end Scorer

namespace TM

/-- The removal direction of the reconciliation claim, as stated: after one
sync run, every surviving index entry records a path that exists on the
filesystem that was synced. -/
def syncRemovalAsStated (st : TMState) (now : String) : Bool :=
  ((syncTemplateIndex st now).1.index.templates).all (fun p => pathExistsB st.fs p.2.path)

/-- The addition direction of the reconciliation claim, as stated: every
observed template file whose id had no index entry gains an entry whose
category is taken from its physical container. -/
def syncAdditionAsStated (st : TMState) (now : String) : Bool :=
  st.fs.files.all (fun e =>
    if (alLookup e.1.2 st.index.templates).isNone then
      match alLookup e.1.2 (syncTemplateIndex st now).1.index.templates with
      | some ent => decide (ent.category = some e.1.1)
      | none => false
    else true)

/-- The write-new-then-replace discipline the spec claims for saving the
index: write the serialized index to a fresh file, then replace the index
file with that fresh file. -/
def writeThenReplaceShape (steps : List IoStep) : Prop :=
  ∃ (nm : String) (i : Index), steps = [IoStep.writeTemp nm i, IoStep.replaceIndexWith nm]

/-- A parsable template document used by the concrete reconciliation
examples. -/
def tX : Template := { meta := some { name := some ("X template") } }

/-- A concrete updates object that only sets `meta.description`. -/
def updDesc : Template := { meta := some { description := some ("updated desc") } }

/-- An index entry recording category and path under `project` while the
physical file with the same id sits under `workflow`. -/
def c3entry : IndexEntry :=
  { category := some ("project"), name := some ("x"),
    path := some (FPath.templateFile ("project") ("x")) }

/-- A concrete state with one index entry whose recorded path has no file
(the file with its id lives under another category) and one observed file
whose content does not parse. -/
def c3state : TMState :=
  { fs := { indexFile := none,
            files := [((("workflow"), ("x")), some tX), ((("project"), ("y")), none)] },
    index := { templates := [(("x"), c3entry)], lastUpdated := ("t0"),
               version := ("1.0.0") } }

/-- A concrete filesystem whose index file exists but does not parse and
which holds one parsable template file. -/
def c6fs : Fs :=
  { indexFile := some none,
    files := [((("project"), ("x")), some tX)] }

/-- A concrete state holding one registered template, used to exercise the
collision guard and the update operation. -/
def demoState : TMState :=
  { fs := { indexFile := none, files := [((("project"), ("demo")), some tX)] },
    index := { templates := [(("demo"), c3entry)], lastUpdated := ("t0"),
               version := ("1.0.0") } }

/-- The index produced by a successful `createTemplate`. -/
def createdIndex (st : TMState) (now id category : String) (m : TMeta) (n : String) : Index :=
  { templates := alInsert id (mkCreatedEntry id category m n now) st.index.templates
    lastUpdated := now
    version := st.index.version }

/-- The state produced by a successful `createTemplate`: template file
written, then index entry added, then index persisted. -/
def createdState (st : TMState) (now id category : String) (input : Template)
    (m : TMeta) (n : String) : TMState :=
  { fs := { (writeFile st.fs category id (some (mkCreatedTemplate id category input m n now))) with indexFile := some (some (createdIndex st now id category m n)) }
    index := createdIndex st now id category m n }

end TM

namespace Cli

/-- A concrete cli state with one active project, used to exercise the
transition theorems. -/
def pEntry (s : Stage) : ProjEntry :=
  { stage := s
    path := (s, ("x"))
    createdAt := ("t0")
    lastModified := ("t0")
    note := none }

/-- A concrete cli index/layout pair built from `pEntry`. -/
def pState (s : Stage) : CliState :=
  { index := [(("x"), pEntry s)], dirs := [(s, ("x"))] }

/-- The index entry as rewritten by a successful transition: stage, path and
lastModified updated together (spec 4.2). -/
def movedEntry (e : ProjEntry) (op : TOp) (nm now : String) : ProjEntry :=
  { e with
    stage := destStage op
    path := (destStage op, nm)
    lastModified := now }

end Cli

section AListLemmas

variable {α β : Type} [DecidableEq α]

theorem alLookup_alInsert_self (k : α) (v : β) (l : List (α × β)) :
    alLookup k (alInsert k v l) = some v := by
  induction l with
  | nil => simp [alInsert, alLookup]
  | cons h t ih =>
    obtain ⟨k2, v2⟩ := h
    by_cases hk : k2 = k
    · simp [alInsert, hk, alLookup]
    · simp [alInsert, hk, alLookup, ih]

theorem alLookup_alInsert_ne (k k2 : α) (v : β) (l : List (α × β)) (h : k2 ≠ k) :
    alLookup k2 (alInsert k v l) = alLookup k2 l := by
  induction l with
  | nil =>
    simp only [alInsert, alLookup]
    rw [if_neg (fun hh => h hh.symm)]
  | cons hd t ih =>
    obtain ⟨k3, v3⟩ := hd
    by_cases hk : k3 = k
    · subst hk
      simp only [alInsert, if_pos rfl, alLookup]
      rw [if_neg (fun hh => h hh.symm), if_neg (fun hh => h hh.symm)]
    · simp only [alInsert, if_neg hk, alLookup]
      by_cases hk2 : k3 = k2
      · simp [hk2]
      · simp [hk2, ih]

theorem isSome_alLookup_alInsert (k k2 : α) (v : β) (l : List (α × β))
    (h : (alLookup k2 l).isSome = true) :
    (alLookup k2 (alInsert k v l)).isSome = true := by
  by_cases hk : k2 = k
  · subst hk
    simp [alLookup_alInsert_self]
  · rw [alLookup_alInsert_ne k k2 v l hk]
    exact h

theorem alLookup_isSome_of_mem (k : α) (v : β) (l : List (α × β)) (h : (k, v) ∈ l) :
    (alLookup k l).isSome = true := by
  induction l with
  | nil => simp at h
  | cons hd t ih =>
    obtain ⟨k2, v2⟩ := hd
    rcases List.mem_cons.mp h with h1 | h1
    · obtain ⟨h2, h3⟩ := Prod.mk.injEq .. ▸ h1
      simp [alLookup, h2.symm]
    · by_cases hk : k2 = k
      · simp [alLookup, hk]
      · simp [alLookup, hk, ih h1]

theorem mem_alInsert (x : α × β) (k : α) (v : β) (l : List (α × β))
    (h : x ∈ alInsert k v l) : x = (k, v) ∨ x ∈ l := by
  induction l with
  | nil => simpa [alInsert] using h
  | cons hd t ih =>
    obtain ⟨k2, v2⟩ := hd
    by_cases hk : k2 = k
    · simp [alInsert, hk] at h
      rcases h with h1 | h1
      · exact Or.inl (by simp [h1])
      · exact Or.inr (List.mem_cons_of_mem _ h1)
    · simp [alInsert, hk] at h
      rcases h with h1 | h1
      · exact Or.inr (by simp [h1])
      · rcases ih h1 with h2 | h2
        · exact Or.inl h2
        · exact Or.inr (List.mem_cons_of_mem _ h2)

theorem alLookup_eq_none_iff (k : α) (l : List (α × β)) :
    alLookup k l = none ↔ k ∉ alKeys l := by
  induction l with
  | nil => simp [alLookup, alKeys]
  | cons hd t ih =>
    obtain ⟨k2, v2⟩ := hd
    by_cases hk : k2 = k
    · simp [alLookup, hk, alKeys]
    · simp [alLookup, hk, alKeys, ih]
      intro h
      exact fun hh => hk hh.symm

theorem length_alInsert_of_none (k : α) (v : β) (l : List (α × β))
    (h : alLookup k l = none) : (alInsert k v l).length = l.length + 1 := by
  induction l with
  | nil => simp [alInsert]
  | cons hd t ih =>
    obtain ⟨k2, v2⟩ := hd
    by_cases hk : k2 = k
    · simp [alLookup, hk] at h
    · simp [alLookup, hk] at h
      simp [alInsert, hk, ih h]

theorem alKeys_alInsert_mem (k x : α) (v : β) (l : List (α × β))
    (h : x ∈ alKeys (alInsert k v l)) : x = k ∨ x ∈ alKeys l := by
  unfold alKeys at h
  rcases List.mem_map.mp h with ⟨p, hp, hpx⟩
  rcases mem_alInsert p k v l hp with h1 | h1
  · subst h1
    exact Or.inl hpx.symm
  · refine Or.inr ?_
    unfold alKeys
    exact List.mem_map.mpr ⟨p, h1, hpx⟩

theorem nodup_alKeys_alInsert (k : α) (v : β) (l : List (α × β))
    (h : (alKeys l).Nodup) : (alKeys (alInsert k v l)).Nodup := by
  induction l with
  | nil => simp [alInsert, alKeys]
  | cons hd t ih =>
    obtain ⟨k2, v2⟩ := hd
    rw [show alKeys ((k2, v2) :: t) = k2 :: alKeys t from rfl] at h
    have hnd := List.nodup_cons.mp h
    by_cases hk : k2 = k
    · subst hk
      rw [show alInsert k2 v ((k2, v2) :: t) = (k2, v) :: t by simp [alInsert]]
      rw [show alKeys ((k2, v) :: t) = k2 :: alKeys t from rfl]
      exact List.nodup_cons.mpr hnd
    · rw [show alInsert k v ((k2, v2) :: t) = (k2, v2) :: alInsert k v t by
        simp [alInsert, hk]]
      rw [show alKeys ((k2, v2) :: alInsert k v t) = k2 :: alKeys (alInsert k v t) from rfl]
      refine List.nodup_cons.mpr ⟨?_, ih hnd.2⟩
      intro hmem
      rcases alKeys_alInsert_mem k k2 v t hmem with h1 | h1
      · exact hk h1
      · exact hnd.1 h1

end AListLemmas

namespace TM

theorem addPass_pred (files : TFiles) (now : String) (P : String → Prop)
    (work : List (String × String)) :
    ∀ tpl : List (String × IndexEntry), (∀ e ∈ tpl, P e.1) → (∀ q ∈ work, P q.1) →
      ∀ e ∈ (addPass files now work tpl).1, P e.1 := by
  induction work with
  | nil =>
    intro tpl htpl _
    simpa [addPass] using htpl
  | cons p rest ih =>
    obtain ⟨id, c⟩ := p
    intro tpl htpl hwork
    have hq : P id := hwork (id, c) (List.mem_cons_self _ _)
    have hrest : ∀ q2 ∈ rest, P q2.1 := fun q2 hq2 => hwork q2 (List.mem_cons_of_mem _ hq2)
    by_cases hl : (alLookup id tpl).isSome = true
    · simpa [addPass, hl] using ih tpl htpl hrest
    · rcases hf : alLookup ((c, id)) files with _ | ot
      · simpa [addPass, hl, hf] using ih tpl htpl hrest
      · cases ot with
        | none => simpa [addPass, hl, hf] using ih tpl htpl hrest
        | some t =>
          have htpl2 : ∀ e ∈ alInsert id (syncAddEntry id c t now) tpl, P e.1 := by
            intro e he
            rcases mem_alInsert e id _ tpl he with h1 | h1
            · rw [h1]
              exact hq
            · exact htpl e h1
          simpa [addPass, hl, hf] using ih _ htpl2 hrest

theorem addPass_mono (files : TFiles) (now : String) (k : String)
    (work : List (String × String)) :
    ∀ tpl : List (String × IndexEntry), (alLookup k tpl).isSome = true →
      (alLookup k (addPass files now work tpl).1).isSome = true := by
  induction work with
  | nil =>
    intro tpl h
    simpa [addPass] using h
  | cons p rest ih =>
    obtain ⟨id, c⟩ := p
    intro tpl h
    by_cases hl : (alLookup id tpl).isSome = true
    · simpa [addPass, hl] using ih tpl h
    · rcases hf : alLookup ((c, id)) files with _ | ot
      · simpa [addPass, hl, hf] using ih tpl h
      · cases ot with
        | none => simpa [addPass, hl, hf] using ih tpl h
        | some t =>
          simpa [addPass, hl, hf] using ih _ (isSome_alLookup_alInsert id k _ tpl h)

theorem addPass_complete (files : TFiles) (now : String)
    (work : List (String × String)) :
    ∀ tpl : List (String × IndexEntry), ∀ q ∈ work,
      (alLookup q.1 (addPass files now work tpl).1).isSome = true ∨
        ∀ t, alLookup ((q.2, q.1)) files ≠ some (some t) := by
  induction work with
  | nil =>
    intro tpl q hq
    simp at hq
  | cons p rest ih =>
    obtain ⟨id, c⟩ := p
    intro tpl q hq
    rcases List.mem_cons.mp hq with h1 | h1
    · subst h1
      by_cases hl : (alLookup id tpl).isSome = true
      · left
        simpa [addPass, hl] using addPass_mono files now id rest tpl hl
      · rcases hf : alLookup ((c, id)) files with _ | ot
        · right
          intro t
          simp [hf]
        · cases ot with
          | none =>
            right
            intro t
            simp [hf]
          | some t =>
            left
            have hself : (alLookup id (alInsert id (syncAddEntry id c t now) tpl)).isSome = true := by
              simp [alLookup_alInsert_self]
            simpa [addPass, hl, hf] using addPass_mono files now id rest _ hself
    · by_cases hl : (alLookup id tpl).isSome = true
      · rcases ih tpl q h1 with h2 | h2
        · left
          simpa [addPass, hl] using h2
        · exact Or.inr h2
      · rcases hf : alLookup ((c, id)) files with _ | ot
        · rcases ih tpl q h1 with h2 | h2
          · left
            simpa [addPass, hl, hf] using h2
          · exact Or.inr h2
        · cases ot with
          | none =>
            rcases ih tpl q h1 with h2 | h2
            · left
              simpa [addPass, hl, hf] using h2
            · exact Or.inr h2
          | some t =>
            rcases ih (alInsert id (syncAddEntry id c t now) tpl) q h1 with h2 | h2
            · left
              simpa [addPass, hl, hf] using h2
            · exact Or.inr h2

theorem addPass_noop (files : TFiles) (now : String)
    (work : List (String × String)) (tpl : List (String × IndexEntry)) :
    (∀ q ∈ work, (alLookup q.1 tpl).isSome = true ∨
        ∀ t, alLookup ((q.2, q.1)) files ≠ some (some t)) →
      addPass files now work tpl = (tpl, 0) := by
  induction work with
  | nil =>
    intro _
    simp [addPass]
  | cons p rest ih =>
    obtain ⟨id, c⟩ := p
    intro h
    have hrest := fun q hq => h q (List.mem_cons_of_mem _ hq)
    rcases h (id, c) (List.mem_cons_self _ _) with h1 | h1
    · simp only at h1
      simp [addPass, h1, ih hrest]
    · by_cases hl : (alLookup id tpl).isSome = true
      · simp [addPass, hl, ih hrest]
      · rcases hf : alLookup ((c, id)) files with _ | ot
        · simp [addPass, hl, hf, ih hrest]
        · cases ot with
          | none => simp [addPass, hl, hf, ih hrest]
          | some t => exact absurd hf (h1 t)

theorem addPass_preserve (files : TFiles) (now : String) (k : String)
    (work : List (String × String)) :
    ∀ tpl : List (String × IndexEntry), k ∉ alKeys work →
      alLookup k (addPass files now work tpl).1 = alLookup k tpl := by
  induction work with
  | nil =>
    intro tpl _
    simp [addPass]
  | cons p rest ih =>
    obtain ⟨id, c⟩ := p
    intro tpl hk
    have hkr : k ∉ alKeys rest := fun hh => hk (List.mem_cons_of_mem _ hh)
    have hkid : id ≠ k := by
      intro hh
      exact hk (by rw [hh]; exact List.mem_cons_self _ _)
    by_cases hl : (alLookup id tpl).isSome = true
    · simpa [addPass, hl] using ih tpl hkr
    · rcases hf : alLookup ((c, id)) files with _ | ot
      · simpa [addPass, hl, hf] using ih tpl hkr
      · cases ot with
        | none => simpa [addPass, hl, hf] using ih tpl hkr
        | some t =>
          have := ih (alInsert id (syncAddEntry id c t now) tpl) hkr
          rw [alLookup_alInsert_ne id k _ tpl (fun hh => hkid hh.symm)] at this
          simpa [addPass, hl, hf] using this

theorem addPass_adds (files : TFiles) (now : String) (id c : String) (t : Template)
    (work : List (String × String)) :
    ∀ tpl : List (String × IndexEntry), (alKeys work).Nodup → (id, c) ∈ work →
      alLookup id tpl = none → alLookup ((c, id)) files = some (some t) →
      alLookup id (addPass files now work tpl).1 = some (syncAddEntry id c t now) := by
  induction work with
  | nil =>
    intro tpl _ hmem
    simp at hmem
  | cons p rest ih =>
    obtain ⟨id2, c2⟩ := p
    intro tpl hnd hmem hnone hfile
    have hnd2 := List.nodup_cons.mp
      (by rw [show alKeys ((id2, c2) :: rest) = id2 :: alKeys rest from rfl] at hnd; exact hnd)
    rcases List.mem_cons.mp hmem with h1 | h1
    · have hid : id = id2 := congrArg Prod.fst h1
      have hc : c = c2 := congrArg Prod.snd h1
      subst hid
      subst hc
      have hl : (alLookup id tpl).isSome = false := by simp [hnone]
      have hpres := addPass_preserve files now id rest
        (alInsert id (syncAddEntry id c t now) tpl) hnd2.1
      rw [alLookup_alInsert_self] at hpres
      simpa [addPass, hl, hfile] using hpres
    · have hmemk : id ∈ alKeys rest := List.mem_map.mpr ⟨(id, c), h1, rfl⟩
      have hidne : id2 ≠ id := fun hh => hnd2.1 (hh ▸ hmemk)
      by_cases hl : (alLookup id2 tpl).isSome = true
      · simpa [addPass, hl] using ih tpl hnd2.2 h1 hnone hfile
      · rcases hf : alLookup ((c2, id2)) files with _ | ot
        · simpa [addPass, hl, hf] using ih tpl hnd2.2 h1 hnone hfile
        · cases ot with
          | none => simpa [addPass, hl, hf] using ih tpl hnd2.2 h1 hnone hfile
          | some t2 =>
            have hnone2 : alLookup id (alInsert id2 (syncAddEntry id2 c2 t2 now) tpl) = none := by
              rw [alLookup_alInsert_ne id2 id _ tpl (fun hh => hidne hh.symm)]
              exact hnone
            simpa [addPass, hl, hf] using ih _ hnd2.2 h1 hnone2 hfile

theorem discoverPairs_nodup_keys (files : TFiles) :
    (alKeys (discoverPairs files)).Nodup := by
  have hgen : ∀ (cs : List String) (acc : List (String × String)), (alKeys acc).Nodup →
      (alKeys (cs.foldl (fun acc2 c =>
        (readdirIds files c).foldl (fun acc3 id => alInsert id c acc3) acc2) acc)).Nodup := by
    intro cs
    induction cs with
    | nil =>
      intro acc h
      simpa using h
    | cons c rest ih =>
      intro acc h
      have hinner : ∀ (ids : List String) (acc2 : List (String × String)), (alKeys acc2).Nodup →
          (alKeys (ids.foldl (fun acc3 id => alInsert id c acc3) acc2)).Nodup := by
        intro ids
        induction ids with
        | nil =>
          intro acc2 h2
          simpa using h2
        | cons i irest iih =>
          intro acc2 h2
          exact iih _ (nodup_alKeys_alInsert i c acc2 h2)
      exact ih _ (hinner (readdirIds files c) acc h)
  simpa [discoverPairs] using hgen validCategories [] (by simp [alKeys])

end TM

section GenericLemmas

variable {α β : Type} [DecidableEq α]

theorem alLookup_filter_none (k : α) (p : α × β → Bool) (l : List (α × β))
    (h : alLookup k l = none) : alLookup k (l.filter p) = none := by
  induction l with
  | nil => simp [alLookup]
  | cons hd t ih =>
    obtain ⟨k2, v2⟩ := hd
    by_cases hk : k2 = k
    · simp [alLookup, hk] at h
    · simp only [alLookup, if_neg hk] at h
      by_cases hp : p (k2, v2) = true
      · rw [List.filter_cons_of_pos hp]
        simp only [alLookup, if_neg hk]
        exact ih h
      · rw [List.filter_cons_of_neg (by simpa using hp)]
        exact ih h

end GenericLemmas

/-- C5 counterexample: `saveIndex` as written does not follow the
write-new-then-replace discipline at any input; at this concrete index it
issues no fresh-file write followed by a replace, only a direct write. -/
theorem saveIndex_not_write_then_replace :
    ¬ TM.writeThenReplaceShape
        (TM.saveIndexSteps
          { templates := [], lastUpdated := ("t0"), version := ("1.0.0") } ("t1")) := by
  intro h
  obtain ⟨nm, i, h⟩ := h
  simp [TM.saveIndexSteps] at h

/-- C5 (amended): `saveIndex` serializes the whole index in one direct
`writeFileSync` to the index path, with no intermediate fresh file and no
replace step, and the written index carries `lastUpdated` set to the time of
saving. -/
theorem saveIndex_single_direct_write (idx : TM.Index) (now : String) :
    TM.saveIndexSteps idx now
      = [TM.IoStep.writeIndexFile { idx with lastUpdated := now }] ∧
    ({ idx with lastUpdated := now } : TM.Index).lastUpdated = now :=
  ⟨rfl, rfl⟩

/-- C8: reconciliation never deletes physical data: one sync run leaves the
set of template files on the filesystem exactly as it was, and its only
filesystem write is rewriting the index file with the reconciled index. -/
theorem sync_preserves_physical_files (st : TM.TMState) (now : String) :
    (TM.syncTemplateIndex st now).1.fs.files = st.fs.files ∧
    (TM.syncTemplateIndex st now).1.fs.indexFile
      = some (some ((TM.syncTemplateIndex st now).1.index)) :=
  ⟨rfl, rfl⟩

/-- C10: every `scoreProject` call prepends exactly one history entry (for
the scored project, with its total score and timestamp) and truncates the
history to its first 50 entries, so the head is always the newest entry and
after any nonempty sequence of calls the stored history holds at most 50
entries. -/
theorem scoreProject_history_bound (sd : Scorer.ScoresData) (nm : String)
    (total : Int) (now : String) (mi : Option String) :
    (Scorer.scoreProject sd nm total now mi).scoringHistory
      = some (((⟨nm, total, now, mi⟩ : Scorer.HistEntry)
          :: sd.scoringHistory.getD []).take 50) ∧
    ((Scorer.scoreProject sd nm total now mi).scoringHistory.getD []).length ≤ 50 ∧
    (∀ calls, calls ≠ [] →
      ((Scorer.scoreProjectFold sd calls).scoringHistory.getD []).length ≤ 50) := by
  refine ⟨rfl, ?_, ?_⟩
  · simp [Scorer.scoreProject]
  · have key : ∀ (calls : List (String × Int × String × Option String))
        (sd2 : Scorer.ScoresData), calls ≠ [] →
        ((Scorer.scoreProjectFold sd2 calls).scoringHistory.getD []).length ≤ 50 := by
      intro calls
      induction calls with
      | nil =>
        intro sd2 h
        exact absurd rfl h
      | cons q rest ih =>
        intro sd2 _
        cases rest with
        | nil => simp [Scorer.scoreProjectFold, Scorer.scoreProject]
        | cons q2 rest2 =>
          rw [show Scorer.scoreProjectFold sd2 (q :: q2 :: rest2)
              = Scorer.scoreProjectFold
                  (Scorer.scoreProject sd2 q.1 q.2.1 q.2.2.1 q.2.2.2) (q2 :: rest2)
            from rfl]
          exact ih (Scorer.scoreProject sd2 q.1 q.2.1 q.2.2.1 q.2.2.2) (by simp)
    intro calls h
    exact key calls sd h

/-- C10 witness: a single call on an empty store yields the one-entry
history, and a concrete nonempty call sequence stays within the 50-entry
bound. -/
theorem scoreProject_history_bound_witness :
    (Scorer.scoreProject {} ("p1") 42 ("t1") none).scoringHistory
      = some [(⟨("p1"), 42, ("t1"), none⟩ : Scorer.HistEntry)] ∧
    ((Scorer.scoreProjectFold {} [(("p1"), 42, ("t1"), none),
        (("p2"), 7, ("t2"), none)]).scoringHistory.getD []).length ≤ 50 := by
  constructor
  · have h := (scoreProject_history_bound {} ("p1") 42 ("t1") none).1
    simpa using h
  · exact (scoreProject_history_bound {} ("p1") 42 ("t1") none).2.2
      [(("p1"), 42, ("t1"), none), (("p2"), 7, ("t2"), none)] (by simp)

/-- C4: every lifecycle transition operation succeeds exactly when the
project's current stage is in the operation's allowed-source set; otherwise
it fails with InvalidTransition, exits non-zero, and leaves the state
unchanged; on success the entry moves to the operation's destination stage;
in particular ship is refused from MAYBE, allowed from NOW, and lands in
DONE. -/
theorem transition_legality (fsOk : Bool) (st : Cli.CliState) (op : Cli.TOp)
    (nm now : String) (e : Cli.ProjEntry)
    (he : alLookup nm st.index = some e) :
    (Cli.allowedFrom op e.stage = false →
      Cli.transition fsOk st op nm now
        = (st, Except.error Cli.CliErr.invalidTransition) ∧
      Cli.exitCode (Cli.transition fsOk st op nm now) ≠ 0) ∧
    (Cli.allowedFrom op e.stage = true → fsOk = true →
      ∃ st2, Cli.transition fsOk st op nm now = (st2, Except.ok ()) ∧
        Cli.exitCode (Cli.transition fsOk st op nm now) = 0 ∧
        alLookup nm st2.index = some (Cli.movedEntry e op nm now)) ∧
    Cli.allowedFrom Cli.TOp.ship Cli.Stage.MAYBE = false ∧
    Cli.allowedFrom Cli.TOp.ship Cli.Stage.NOW = true ∧
    Cli.destStage Cli.TOp.ship = Cli.Stage.DONE := by
  refine ⟨?_, ?_, rfl, rfl, rfl⟩
  · intro h
    constructor
    · simp [Cli.transition, he, h]
    · simp [Cli.transition, he, h, Cli.exitCode]
  · intro h hok
    subst hok
    have heq : Cli.transition true st op nm now
        = ({ index := alInsert nm (Cli.movedEntry e op nm now) st.index
             dirs := (st.dirs.filter (fun d => !(d = (e.stage, nm))))
               ++ [(Cli.destStage op, nm)] }, Except.ok ()) := by
      simp [Cli.transition, he, h, Cli.movedEntry]
    refine ⟨_, heq, ?_, ?_⟩
    · simp [heq, Cli.exitCode]
    · exact alLookup_alInsert_self nm _ st.index

/-- C4 witness: at concrete states, ship from MAYBE is refused with
InvalidTransition leaving the state unchanged, and ship from NOW succeeds
moving the entry to DONE. -/
theorem transition_legality_witness :
    (Cli.transition true (Cli.pState Cli.Stage.MAYBE) Cli.TOp.ship ("x") ("t1")
      = (Cli.pState Cli.Stage.MAYBE, Except.error Cli.CliErr.invalidTransition)) ∧
    (∃ st2, Cli.transition true (Cli.pState Cli.Stage.NOW) Cli.TOp.ship ("x") ("t1")
        = (st2, Except.ok ()) ∧
      alLookup ("x") st2.index
        = some (Cli.movedEntry (Cli.pEntry Cli.Stage.NOW) Cli.TOp.ship ("x") ("t1"))) := by
  constructor
  · exact ((transition_legality true (Cli.pState Cli.Stage.MAYBE) Cli.TOp.ship
      ("x") ("t1") (Cli.pEntry Cli.Stage.MAYBE) (by decide)).1 rfl).1
  · obtain ⟨st2, h1, _, h3⟩ := (transition_legality true (Cli.pState Cli.Stage.NOW)
      Cli.TOp.ship ("x") ("t1") (Cli.pEntry Cli.Stage.NOW) (by decide)).2.1 rfl rfl
    exact ⟨st2, h1, h3⟩

/-- C7: when the physical relocation fails during a pause of a NOW project,
the operation reports a filesystem failure and the state is unchanged: the
index entry still records stage NOW and the directory is still under the
NOW container. -/
theorem pause_fs_failure_atomic (st : Cli.CliState) (nm now : String)
    (e : Cli.ProjEntry) (he : alLookup nm st.index = some e)
    (hs : e.stage = Cli.Stage.NOW) (hd : (Cli.Stage.NOW, nm) ∈ st.dirs) :
    Cli.transition false st Cli.TOp.pause nm now
      = (st, Except.error Cli.CliErr.filesystemFailure) ∧
    alLookup nm (Cli.transition false st Cli.TOp.pause nm now).1.index = some e ∧
    e.stage = Cli.Stage.NOW ∧
    (Cli.Stage.NOW, nm) ∈ (Cli.transition false st Cli.TOp.pause nm now).1.dirs := by
  have hallowed : Cli.allowedFrom Cli.TOp.pause e.stage = true := by
    rw [hs]
    rfl
  have heq : Cli.transition false st Cli.TOp.pause nm now
      = (st, Except.error Cli.CliErr.filesystemFailure) := by
    simp [Cli.transition, he, hallowed]
  exact ⟨heq, by rw [heq]; exact he, hs, by rw [heq]; exact hd⟩

/-- C7 witness: the concrete NOW project is untouched by a pause whose
relocation fails. -/
theorem pause_fs_failure_atomic_witness :
    Cli.transition false (Cli.pState Cli.Stage.NOW) Cli.TOp.pause ("x") ("t1")
      = (Cli.pState Cli.Stage.NOW, Except.error Cli.CliErr.filesystemFailure) :=
  (pause_fs_failure_atomic (Cli.pState Cli.Stage.NOW) ("x") ("t1")
    (Cli.pEntry Cli.Stage.NOW) (by decide) rfl (by decide)).1

/-- C6: whenever the backing index file is absent or its content is
unparsable, `loadIndex` returns the empty index instead of failing, and a
subsequent sync rebuilds an entry for every discovered parsable template
file from the observed filesystem. -/
theorem loadIndex_recovers_empty (fs : TM.Fs) (now now2 : String)
    (h : fs.indexFile = none ∨ fs.indexFile = some none) :
    TM.loadIndex fs now = TM.emptyIndex now ∧
    (TM.loadIndex fs now).templates = [] ∧
    (∀ id c t, (id, c) ∈ TM.discoverPairs fs.files →
      alLookup ((c, id)) fs.files = some (some t) →
      alLookup id (TM.syncTemplateIndex
          { fs := fs, index := TM.loadIndex fs now } now2).1.index.templates
        = some (TM.syncAddEntry id c t now2)) := by
  have hload : TM.loadIndex fs now = TM.emptyIndex now := by
    rcases h with h | h
    · simp [TM.loadIndex, h]
    · simp [TM.loadIndex, h]
  refine ⟨hload, by rw [hload]; rfl, ?_⟩
  intro id c t hmem hfile
  rw [hload]
  show alLookup id (TM.addPass fs.files now2 (TM.discoverPairs fs.files) []).1
      = some (TM.syncAddEntry id c t now2)
  exact TM.addPass_adds fs.files now2 id c t (TM.discoverPairs fs.files) []
    (TM.discoverPairs_nodup_keys fs.files) hmem rfl hfile

/-- C6 witness: a filesystem whose index file exists but does not parse
yields the empty index, and sync then rebuilds the entry of its one
parsable template file. -/
theorem loadIndex_recovers_empty_witness :
    TM.loadIndex TM.c6fs ("t1") = TM.emptyIndex ("t1") ∧
    alLookup ("x") (TM.syncTemplateIndex
        { fs := TM.c6fs, index := TM.loadIndex TM.c6fs ("t1") } ("t2")).1.index.templates
      = some (TM.syncAddEntry ("x") ("project") TM.tX ("t2")) := by
  have h := loadIndex_recovers_empty TM.c6fs ("t1") ("t2") (Or.inr rfl)
  exact ⟨h.1, h.2.2 ("x") ("project") TM.tX (by decide) (by decide)⟩

/-- C1: `createTemplate` fails with the name-collision error whenever the
id already has an index entry, whatever category the existing entry or the
request targets, leaving index and filesystem unchanged; for an id with no
entry (and a well-formed request: valid category, nonempty meta name) it
succeeds and adds exactly one entry for that id, leaving every other id's
lookup unchanged. -/
theorem createTemplate_collision_guard (st : TM.TMState) (now id category : String)
    (input : TM.Template) :
    (TM.templateExists st.index id = true →
      TM.createTemplate st now id category input
        = (st, Except.error (TM.TMErr.alreadyExists id))) ∧
    (TM.templateExists st.index id = false → category ∈ TM.validCategories →
      ∀ m n, input.meta = some m → m.name = some n → ¬(n = ("")) →
      ∃ st2 tpl, TM.createTemplate st now id category input = (st2, Except.ok tpl) ∧
        st2.index.templates.length = st.index.templates.length + 1 ∧
        alLookup id st2.index.templates = some (TM.mkCreatedEntry id category m n now) ∧
        (∀ k, ¬(k = id) → alLookup k st2.index.templates = alLookup k st.index.templates)) := by
  constructor
  · intro h
    simp [TM.createTemplate, h]
  · intro h hcat m n hm hn hne
    have hnone : alLookup id st.index.templates = none := by
      rcases hx : alLookup id st.index.templates with _ | v
      · rfl
      · simp [TM.templateExists, hx] at h
    have heq : TM.createTemplate st now id category input
        = (TM.createdState st now id category input m n,
           Except.ok (TM.mkCreatedTemplate id category input m n now)) := by
      simp [TM.createTemplate, h, hcat, hm, hn, hne, TM.createdState, TM.createdIndex]
    refine ⟨_, _, heq, ?_, ?_, ?_⟩
    · show (alInsert id (TM.mkCreatedEntry id category m n now) st.index.templates).length
        = st.index.templates.length + 1
      exact length_alInsert_of_none id _ st.index.templates hnone
    · exact alLookup_alInsert_self id _ st.index.templates
    · intro k hk
      exact alLookup_alInsert_ne id k _ st.index.templates hk

/-- C1 witness: registering the already-registered id fails with the
collision error and no state change even under a different category, and
registering a fresh id succeeds, growing the index by one entry. -/
theorem createTemplate_collision_guard_witness :
    (TM.createTemplate TM.demoState ("t1") ("demo") ("workflow") TM.tX
      = (TM.demoState, Except.error (TM.TMErr.alreadyExists ("demo")))) ∧
    (∃ st2 tpl, TM.createTemplate TM.demoState ("t1") ("fresh") ("project") TM.tX
        = (st2, Except.ok tpl) ∧ st2.index.templates.length = 2) := by
  constructor
  · exact (createTemplate_collision_guard TM.demoState ("t1") ("demo") ("workflow")
      TM.tX).1 (by decide)
  · obtain ⟨st2, tpl, h1, h2, _, _⟩ :=
      (createTemplate_collision_guard TM.demoState ("t1") ("fresh") ("project")
        TM.tX).2 (by decide) (by decide)
        ({ name := some ("X template") }) ("X template") rfl rfl (by decide)
    exact ⟨st2, tpl, h1, by rw [h2]; rfl⟩

/-- C2: reconciliation is idempotent: for every state, a second sync with
no intervening filesystem change reports zero additions and zero removals
and leaves the index entries unchanged. -/
theorem syncTemplateIndex_idempotent (st : TM.TMState) (t1 t2 : String) :
    (TM.syncTemplateIndex (TM.syncTemplateIndex st t1).1 t2).2.addedCount = 0 ∧
    (TM.syncTemplateIndex (TM.syncTemplateIndex st t1).1 t2).2.removedCount = 0 ∧
    (TM.syncTemplateIndex (TM.syncTemplateIndex st t1).1 t2).1.index.templates
      = (TM.syncTemplateIndex st t1).1.index.templates := by
  simp only [TM.syncTemplateIndex]
  set fsT := TM.discoverPairs st.fs.files with hfsT
  set tpl1 := (TM.removePass fsT st.index.templates).1 with htpl1
  set tpl2 := (TM.addPass st.fs.files t1 fsT tpl1).1 with htpl2
  have htplmem : ∀ e ∈ tpl1, (alLookup e.1 fsT).isSome = true := by
    intro e he
    rw [htpl1] at he
    exact (List.mem_filter.mp he).2
  have hwork : ∀ q ∈ fsT, (alLookup q.1 fsT).isSome = true := by
    intro q hq
    exact alLookup_isSome_of_mem q.1 q.2 fsT hq
  have hA : ∀ e ∈ tpl2, (alLookup e.1 fsT).isSome = true := by
    intro e he
    rw [htpl2] at he
    exact TM.addPass_pred st.fs.files t1
      (fun k => (alLookup k fsT).isSome = true) fsT tpl1 htplmem hwork e he
  have hB := TM.addPass_complete st.fs.files t1 fsT tpl1
  have hrm : TM.removePass fsT tpl2 = (tpl2, 0) := by
    have h1 : tpl2.filter (fun e => (alLookup e.1 fsT).isSome) = tpl2 :=
      List.filter_eq_self.mpr hA
    have h2 : tpl2.filter (fun e => (alLookup e.1 fsT).isNone) = [] := by
      rw [List.filter_eq_nil_iff]
      intro a ha
      have hsome := hA a ha
      rcases hx : alLookup a.1 fsT with _ | v
      · rw [hx] at hsome
        simp at hsome
      · simp [hx]
    simp only [TM.removePass, h1, h2, List.length_nil]
  have had : TM.addPass st.fs.files t2 fsT tpl2 = (tpl2, 0) := by
    apply TM.addPass_noop
    intro q hq
    rcases hB q hq with h | h
    · left
      rw [htpl2]
      exact h
    · exact Or.inr h
  have hrm1 : (TM.removePass fsT tpl2).1 = tpl2 := by rw [hrm]
  refine ⟨?_, ?_, ?_⟩
  · rw [hrm1, had]
  · rw [hrm]
  · rw [hrm1, had]

/-- C3 counterexample: at this concrete state one run of sync violates both
directions of the claim as stated: the index entry whose recorded path has
no file survives (because a file with its id exists under another
category), and an observed file with no index entry gains none (because its
content does not parse). -/
theorem sync_directionality_counterexample :
    TM.syncRemovalAsStated TM.c3state ("t1") = false ∧
    TM.syncAdditionAsStated TM.c3state ("t1") = false := by
  exact ⟨by decide, by decide⟩

/-- C3 (amended): after one sync run, every surviving index entry has a
discovered file with its id under some category (so an entry whose id has
no file anywhere is removed, though an entry whose recorded category is
stale survives when a file with its id exists elsewhere), and every
discovered file whose id had no index entry and whose content parses gains
an entry synthesized from its physical container's category. -/
theorem sync_directionality_amended (st : TM.TMState) (now : String) :
    (∀ p ∈ (TM.syncTemplateIndex st now).1.index.templates,
      (alLookup p.1 (TM.discoverPairs st.fs.files)).isSome = true) ∧
    (∀ id c t, (id, c) ∈ TM.discoverPairs st.fs.files →
      alLookup id st.index.templates = none →
      alLookup ((c, id)) st.fs.files = some (some t) →
      alLookup id (TM.syncTemplateIndex st now).1.index.templates
        = some (TM.syncAddEntry id c t now)) := by
  constructor
  · intro p hp
    have hp2 : p ∈ (TM.addPass st.fs.files now (TM.discoverPairs st.fs.files)
        (TM.removePass (TM.discoverPairs st.fs.files) st.index.templates).1).1 := hp
    exact TM.addPass_pred st.fs.files now
      (fun k => (alLookup k (TM.discoverPairs st.fs.files)).isSome = true)
      (TM.discoverPairs st.fs.files)
      (TM.removePass (TM.discoverPairs st.fs.files) st.index.templates).1
      (fun e he => (List.mem_filter.mp he).2)
      (fun q hq => alLookup_isSome_of_mem q.1 q.2 _ hq) p hp2
  · intro id c t hmem hnone hfile
    have hnone2 : alLookup id
        (TM.removePass (TM.discoverPairs st.fs.files) st.index.templates).1 = none :=
      alLookup_filter_none id _ st.index.templates hnone
    show alLookup id (TM.addPass st.fs.files now (TM.discoverPairs st.fs.files)
        (TM.removePass (TM.discoverPairs st.fs.files) st.index.templates).1).1
      = some (TM.syncAddEntry id c t now)
    exact TM.addPass_adds st.fs.files now id c t (TM.discoverPairs st.fs.files) _
      (TM.discoverPairs_nodup_keys st.fs.files) hmem hnone2 hfile

/-- C3 witness: on a filesystem with one parsable file and an empty index,
the surviving entries all have discovered ids, and the observed parsable
file gains the synthesized entry of its container. -/
theorem sync_directionality_amended_witness :
    (alLookup ("x") (TM.discoverPairs TM.c6fs.files)).isSome = true ∧
    alLookup ("x") (TM.syncTemplateIndex
        { fs := TM.c6fs, index := {} } ("t2")).1.index.templates
      = some (TM.syncAddEntry ("x") ("project") TM.tX ("t2")) := by
  constructor
  · exact (sync_directionality_amended { fs := TM.c6fs, index := {} } ("t2")).1
      (("x"), TM.syncAddEntry ("x") ("project") TM.tX ("t2")) (by decide)
  · exact (sync_directionality_amended { fs := TM.c6fs, index := {} } ("t2")).2
      ("x") ("project") TM.tX (by decide) rfl (by decide)

/-- C9: for an existing template id whose file parses, and updates that do
not set `id` and whose `meta` does not set `createdAt`, `updateTemplate`
succeeds with the merged document: the document keeps its id and its
`meta.createdAt`, gets `meta.lastModified` set to the current time, the
index entry keeps its category (and createdAt and path), and every field
not mentioned in the updates keeps its previous value. -/
theorem updateTemplate_frame (st : TM.TMState) (now id : String)
    (updates : TM.Template) (e : TM.IndexEntry) (existing : TM.Template)
    (he : alLookup id st.index.templates = some e)
    (hf : alLookup ((TM.getTemplatePathCat st.index id, id)) st.fs.files
      = some (some existing))
    (hid : updates.id = none)
    (hmeta : (updates.meta.getD {}).createdAt = none) :
    ∃ st2, TM.updateTemplate st now id updates
        = (st2, Except.ok (TM.mergeTemplate existing updates now)) ∧
      (TM.mergeTemplate existing updates now).id = existing.id ∧
      ((TM.mergeTemplate existing updates now).meta.getD {}).createdAt
        = (existing.meta.getD {}).createdAt ∧
      ((TM.mergeTemplate existing updates now).meta.getD {}).lastModified = some now ∧
      (∃ e2, alLookup id st2.index.templates = some e2 ∧
        e2.category = e.category ∧ e2.createdAt = e.createdAt ∧ e2.path = e.path) ∧
      (updates.files = none →
        (TM.mergeTemplate existing updates now).files = existing.files) ∧
      (updates.claudeMd = none →
        (TM.mergeTemplate existing updates now).claudeMd = existing.claudeMd) ∧
      (updates.vars = none →
        (TM.mergeTemplate existing updates now).vars = existing.vars) ∧
      (updates.dependencies = none →
        (TM.mergeTemplate existing updates now).dependencies = existing.dependencies) ∧
      (updates.postCreate = none →
        (TM.mergeTemplate existing updates now).postCreate = existing.postCreate) ∧
      ((updates.meta.getD {}).name = none →
        ((TM.mergeTemplate existing updates now).meta.getD {}).name
          = (existing.meta.getD {}).name) ∧
      ((updates.meta.getD {}).description = none →
        ((TM.mergeTemplate existing updates now).meta.getD {}).description
          = (existing.meta.getD {}).description) ∧
      ((updates.meta.getD {}).version = none →
        ((TM.mergeTemplate existing updates now).meta.getD {}).version
          = (existing.meta.getD {}).version) ∧
      ((updates.meta.getD {}).tags = none →
        ((TM.mergeTemplate existing updates now).meta.getD {}).tags
          = (existing.meta.getD {}).tags) ∧
      ((updates.meta.getD {}).author = none →
        ((TM.mergeTemplate existing updates now).meta.getD {}).author
          = (existing.meta.getD {}).author) := by
  have htex : TM.templateExists st.index id = true := by
    simp [TM.templateExists, he]
  have hread : TM.readTemplate st id = Except.ok existing := by
    simp [TM.readTemplate, htex, hf]
  have heq : TM.updateTemplate st now id updates
      = (TM.updatedState st now id (TM.mergeTemplate existing updates now)
          (TM.mergeMeta (existing.meta.getD {}) (updates.meta.getD {}) now),
         Except.ok (TM.mergeTemplate existing updates now)) := by
    simp [TM.updateTemplate, htex, hread]
  refine ⟨_, heq, ?_, ?_, ?_, ?_, ?_, ?_, ?_, ?_, ?_, ?_, ?_, ?_, ?_, ?_⟩
  · simp [TM.mergeTemplate, TM.ovr, hid]
  · simp [TM.mergeTemplate, TM.mergeMeta, TM.ovr, hmeta]
  · simp [TM.mergeTemplate, TM.mergeMeta]
  · have hlk : alLookup id (TM.updatedState st now id
        (TM.mergeTemplate existing updates now)
        (TM.mergeMeta (existing.meta.getD {}) (updates.meta.getD {}) now)).index.templates
        = some (TM.updatedEntry ((alLookup id st.index.templates).getD {})
            (TM.mergeMeta (existing.meta.getD {}) (updates.meta.getD {}) now)) :=
      alLookup_alInsert_self id _ st.index.templates
    refine ⟨_, hlk, ?_, ?_, ?_⟩
    · simp [TM.updatedEntry, he]
    · simp [TM.updatedEntry, he]
    · simp [TM.updatedEntry, he]
  · intro h
    simp [TM.mergeTemplate, TM.ovr, h]
  · intro h
    simp [TM.mergeTemplate, TM.ovr, h]
  · intro h
    simp [TM.mergeTemplate, TM.ovr, h]
  · intro h
    simp [TM.mergeTemplate, TM.ovr, h]
  · intro h
    simp [TM.mergeTemplate, TM.ovr, h]
  · intro h
    simp [TM.mergeTemplate, TM.mergeMeta, TM.ovr, h]
  · intro h
    simp [TM.mergeTemplate, TM.mergeMeta, TM.ovr, h]
  · intro h
    simp [TM.mergeTemplate, TM.mergeMeta, TM.ovr, h]
  · intro h
    simp [TM.mergeTemplate, TM.mergeMeta, TM.ovr, h]
  · intro h
    simp [TM.mergeTemplate, TM.mergeMeta, TM.ovr, h]

/-- C9 witness: updating the registered template `demo` with an updates
object that only sets the description succeeds with the merged document,
stamps its `meta.lastModified`, keeps its name, and keeps the index entry's
category. -/
theorem updateTemplate_frame_witness :
    ∃ st2, TM.updateTemplate TM.demoState ("t2") ("demo") TM.updDesc
        = (st2, Except.ok (TM.mergeTemplate TM.tX TM.updDesc ("t2"))) ∧
      ((TM.mergeTemplate TM.tX TM.updDesc ("t2")).meta.getD {}).lastModified
        = some ("t2") ∧
      ((TM.mergeTemplate TM.tX TM.updDesc ("t2")).meta.getD {}).name
        = some ("X template") ∧
      (∃ e2, alLookup ("demo") st2.index.templates = some e2 ∧
        e2.category = some ("project")) := by
  obtain ⟨st2, h1, _, _, h4, h5, _, _, _, _, _, hname, _⟩ :=
    updateTemplate_frame TM.demoState ("t2") ("demo") TM.updDesc TM.c3entry TM.tX
      (by decide) (by decide) rfl rfl
  obtain ⟨e2, he2, hcat, _, _⟩ := h5
  refine ⟨st2, h1, h4, ?_, ⟨e2, he2, ?_⟩⟩
  · exact hname rfl
  · rw [hcat]
    rfl
